import Mathlib

/-!
Verification development for the CumulusCI package-zip build pipeline
(`cumulusci/salesforce_api/package_zip.py`) and the metadata-ETL
entity-transform engine (whose tests live in
`cumulusci/tasks/metadata_etl/tests/test_base.py`).

The Python code is shallowly embedded:

* a zip archive is a list of `(path, content)` entries (`Archive`);
* the structured XML manifest is an ordered tree (`MetadataElement`);
* the text-level namespace transforms, the meta.xml cleaner, the
  `metadata_tree` primitives and the entity-transform engine are not under
  `src/`; they are modelled from the spec, with doc comments saying so;
* stateful Python (the `BasePackageZipBuilder.as_bytes` finalization) is
  embedded as explicit state passing, and fallible code returns `Except`.
-/

/-! ## Basic text machinery -/

/-- An archive is an ordered list of `(relative path, content)` entries,
mirroring the entries of the Python `zipfile.ZipFile`. -/
def Archive : Type := List (String × String)

instance : DecidableEq Archive := by
  unfold Archive
  infer_instance

/-- Boolean test that a list of characters starts with the pattern. -/
def startsWithChars : List Char → List Char → Bool
  | [], _ => true
  | _ :: _, [] => false
  | p :: ps, c :: cs => p == c && startsWithChars ps cs

/-- Replace every occurrence of `pat` by `rep` in a character list,
scanning left to right (the semantics of Python `str.replace`).  The fuel
argument makes the recursion structural; one fuel unit per input character
is enough because every step consumes at least one character. -/
def replaceChars (pat rep : List Char) : Nat → List Char → List Char
  | 0, l => l
  | _ + 1, [] => []
  | fuel + 1, c :: cs =>
    if pat ≠ [] ∧ startsWithChars pat (c :: cs) then
      rep ++ replaceChars pat rep fuel (cs.drop (pat.length - 1))
    else
      c :: replaceChars pat rep fuel cs

/-- String-level replace-all, used by the namespace text transforms. -/
def strReplace (s pat rep : String) : String :=
  String.mk (replaceChars pat.data rep.data s.data.length s.data)

/-- The namespace sentinel literal used in CumulusCI metadata text. -/
def SENTINEL : String := "%%%NAMESPACE%%%"

/-- The namespaced-org sentinel literal. -/
def ORG_SENTINEL : String := "%%%NAMESPACED_ORG%%%"

/-! ## Options and truthiness -/

/-- The configuration surface consumed by `MetadataPackageZipBuilder`
(`self.options`).  Fields are `Option`-valued: `none` models an absent key. -/
structure Options where
  namespace_tokenize : Option String := none
  namespace_inject : Option String := none
  namespace_strip : Option String := none
  unmanaged : Option Bool := none
  namespaced_org : Option Bool := none
  clean_meta_xml : Option Bool := none
  static_resource_path : Option String := none
deriving DecidableEq

/-- Python truthiness of `options.get(key)` for a string-valued option:
an absent key and an empty string are both falsy. -/
def truthy : Option String → Bool
  | none => false
  | some s => !(s == "")

/-! ## Namespace text transforms -/

/-- Modelled from the spec: `cumulusci.utils.tokenize_namespace` is not under
`src/`.  Per section 4.2, tokenize replaces every occurrence of
`<prefix>__` with the sentinel. -/
def tokenizeNamespaceText (ns : String) (text : String) : String :=
  strReplace text (ns ++ "__") SENTINEL

/-- Modelled from the spec: `cumulusci.utils.inject_namespace` is not under
`src/`.  Per section 4.2, inject replaces the sentinel with `<prefix>__`
when managed and removes it when unmanaged; the namespaced-org flag
controls the org-specific sentinel the same way. -/
def injectNamespaceText (ns : String) (managed : Bool) (namespacedOrg : Bool)
    (text : String) : String :=
  let t1 := strReplace text SENTINEL (if managed then ns ++ "__" else "")
  strReplace t1 ORG_SENTINEL (if namespacedOrg then ns ++ "__" else "")

/-- Modelled from the spec: `cumulusci.utils.strip_namespace` is not under
`src/`.  Per section 4.2, strip removes sentinel occurrences
unconditionally. -/
def stripNamespaceText (_ns : String) (text : String) : String :=
  strReplace text SENTINEL ""

/-- Modelled from the spec: `cumulusci.utils.process_text_in_zipfile` is not
under `src/`.  Per section 4.2 the text function is applied to every file in
the archive (the default filter matches all files). -/
def processTextInZipfile (f : String → String) (ar : Archive) : Archive :=
  ar.map (fun e => (e.1, f e.2))

/-- Embedding of `MetadataPackageZipBuilder._process_namespace_tokens`:
three independent `if` statements, each re-processing the archive when its
option is truthy, in the fixed source order tokenize, inject, strip. -/
def processNamespaceTokens (o : Options) (ar : Archive) : Archive :=
  let z1 :=
    if truthy o.namespace_tokenize then
      processTextInZipfile (tokenizeNamespaceText (o.namespace_tokenize.getD "")) ar
    else ar
  let z2 :=
    if truthy o.namespace_inject then
      processTextInZipfile
        (injectNamespaceText (o.namespace_inject.getD "")
          (!(o.unmanaged.getD true)) (o.namespaced_org.getD false)) z1
    else z1
  let z3 :=
    if truthy o.namespace_strip then
      processTextInZipfile (stripNamespaceText (o.namespace_strip.getD "")) z2
    else z2
  z3

/-- The same options with only the tokenize mode kept. -/
def tokenizeOnly (o : Options) : Options :=
  { o with namespace_inject := none, namespace_strip := none }

/-- The same options with only the inject mode kept. -/
def injectOnly (o : Options) : Options :=
  { o with namespace_tokenize := none, namespace_strip := none }

/-- The same options with only the strip mode kept. -/
def stripOnly (o : Options) : Options :=
  { o with namespace_tokenize := none, namespace_inject := none }

/-! ## C1 theorems -/

/-- C1 (counterexample): setting two of the mutually-exclusive namespace
modes (tokenize and strip) in the same run is not rejected as a
configuration error; both rewrites are applied to the archive text in
sequence, yielding a result distinct from either single-mode run. -/
theorem c1_multiple_modes_counterexample :
    processNamespaceTokens
        { namespace_tokenize := some "ns", namespace_strip := some "ns" }
        [("classes/A.cls", "ns__Field__c")]
      = [("classes/A.cls", "Field__c")]
    ∧ processNamespaceTokens
        (tokenizeOnly { namespace_tokenize := some "ns", namespace_strip := some "ns" })
        [("classes/A.cls", "ns__Field__c")]
      = [("classes/A.cls", "%%%NAMESPACE%%%Field__c")]
    ∧ processNamespaceTokens
        (stripOnly { namespace_tokenize := some "ns", namespace_strip := some "ns" })
        [("classes/A.cls", "ns__Field__c")]
      = [("classes/A.cls", "ns__Field__c")] := by
  refine ⟨?_, ?_, ?_⟩ <;> decide

/-- C1 (amended): the code performs no mutual-exclusivity validation.  A run
with several namespace modes set applies every enabled rewrite sequentially
in the fixed source order tokenize, inject, strip; it is observationally the
composition of the three single-mode runs, and no error is ever raised. -/
theorem c1_modes_compose (o : Options) (ar : Archive) :
    processNamespaceTokens o ar =
      processNamespaceTokens (stripOnly o)
        (processNamespaceTokens (injectOnly o)
          (processNamespaceTokens (tokenizeOnly o) ar)) := rfl

/-! ## Structured metadata XML trees -/

/-- An ordered XML tree as manipulated by `cumulusci.utils.xml.metadata_tree`:
a tag, optional text, and an ordered list of children. -/
inductive MetadataElement : Type where
  | el (tag : String) (text : Option String) (children : List MetadataElement)

/-- The tag of an element. -/
def MetadataElement.tag : MetadataElement → String
  | .el t _ _ => t

/-- The text of an element. -/
def MetadataElement.text : MetadataElement → Option String
  | .el _ x _ => x

/-- The children of an element. -/
def MetadataElement.children : MetadataElement → List MetadataElement
  | .el _ _ c => c

instance : Inhabited MetadataElement := ⟨.el "" none []⟩

/-- A manifest `members` entry for one bundle name. -/
def mkMember (nm : String) : MetadataElement := .el "members" (some nm) []

/-- The trailing type-name marker of a `StaticResource` manifest section. -/
def staticResourceNameMarker : MetadataElement := .el "name" (some "StaticResource") []

/-- Holds when a child is not a `name` marker (the elements the merge skips
over when looking for the insertion anchor). -/
def notNameTag (c : MetadataElement) : Bool := !(c.tag == "name")

/-- Modelled from the spec: `metadata_tree.findall("types", name="StaticResource")`
(the `metadata_tree` module is not under `src/`); it selects `types` sections
having a `name` child whose text is the requested entity type. -/
def sectionIsStaticResource (c : MetadataElement) : Bool :=
  c.tag == "types" &&
    c.children.any (fun n => n.tag == "name" && n.text == some "StaticResource")

/-- Modelled from the spec: `section.insert_before(section.find("name"), tag="members", text=nm)`
(the `metadata_tree` module is not under `src/`); per section 9 the primitive
inserts the new node immediately before the anchor, here the first `name`
child.  When no `name` child exists the new node lands at the end. -/
def insertBeforeName (cs : List MetadataElement) (nm : String) : List MetadataElement :=
  cs.takeWhile notNameTag ++ mkMember nm :: cs.dropWhile notNameTag

/-- Insert every bundle name into a section, one `insert_before` per name,
mirroring the loop at the end of
`MetadataPackageZipBuilder._bundle_staticresources`. -/
def insertMembers (sec : MetadataElement) (bundles : List String) : MetadataElement :=
  .el sec.tag sec.text (bundles.foldl insertBeforeName sec.children)

/-- The fresh section built when no `StaticResource` section exists:
`Package.append("types")` followed by `section.append("name", text="StaticResource")`. -/
def newStaticResourceSection : MetadataElement :=
  .el "types" none [staticResourceNameMarker]

/-- Embedding of the manifest-merge portion of
`MetadataPackageZipBuilder._bundle_staticresources` (package_zip.py lines
276 to 284): locate the first `types` section named `StaticResource`,
create it (with a trailing name marker) when absent, then insert each
bundle name immediately before the name marker. -/
def mergeStaticResources (pkgChildren : List MetadataElement) (bundles : List String) :
    List MetadataElement :=
  match pkgChildren.findIdx? sectionIsStaticResource with
  | some i => pkgChildren.set i (insertMembers (pkgChildren.getD i default) bundles)
  | none => pkgChildren ++ [insertMembers newStaticResourceSection bundles]

/-! ## C2 helper lemmas -/

theorem takeWhile_dropWhile_self {α : Type} (p : α → Bool) (l : List α) :
    (l.dropWhile p).takeWhile p = [] := by
  induction l with
  | nil => rfl
  | cons a l ih =>
    cases hpa : p a
    · simp [List.dropWhile_cons, hpa]
    · simp [List.dropWhile_cons, hpa, ih]

theorem dropWhile_dropWhile_self {α : Type} (p : α → Bool) (l : List α) :
    (l.dropWhile p).dropWhile p = l.dropWhile p := by
  induction l with
  | nil => rfl
  | cons a l ih =>
    cases hpa : p a
    · simp [List.dropWhile_cons, hpa]
    · simp [List.dropWhile_cons, hpa, ih]

/-- The insertion loop of the manifest merge inserts the new members, in
order, exactly at the anchor position: before the first `name` child (or at
the end when there is none). -/
theorem foldl_insertBeforeName (bundles : List String) :
    ∀ cs : List MetadataElement,
      bundles.foldl insertBeforeName cs =
        cs.takeWhile notNameTag ++ bundles.map mkMember ++ cs.dropWhile notNameTag := by
  induction bundles with
  | nil => intro cs; simp
  | cons b bs ih =>
    intro cs
    rw [List.foldl_cons, ih]
    unfold insertBeforeName
    have hmem : notNameTag (mkMember b) = true := rfl
    have htw : ∀ a ∈ cs.takeWhile notNameTag, notNameTag a = true :=
      fun a ha => List.mem_takeWhile_imp ha
    rw [List.takeWhile_append_of_pos htw, List.dropWhile_append_of_pos htw]
    rw [List.takeWhile_cons_of_pos hmem, List.dropWhile_cons_of_pos hmem]
    rw [takeWhile_dropWhile_self, dropWhile_dropWhile_self]
    simp

/-! ## C2 theorems -/

/-- C2 (counterexample): the merge performs no duplicate check.  Merging
bundle name `A` into a section that already lists member `A` yields two
`members` entries for `A`, refuting the duplicate-free part of the claim. -/
theorem c2_duplicate_counterexample :
    mergeStaticResources
        [.el "types" none [mkMember "A", staticResourceNameMarker]] ["A"]
      = [.el "types" none [mkMember "A", mkMember "A", staticResourceNameMarker]]
    ∧ ((mergeStaticResources
          [.el "types" none [mkMember "A", staticResourceNameMarker]] ["A"]).headD
            default).children.countP
        (fun c => c.tag == "members" && c.text == some "A") = 2 :=
  ⟨rfl, rfl⟩

/-- C2 (amended): the merge locates the first section whose type-name is
`StaticResource` (creating it with a trailing name marker when absent) and
inserts each member, in the given order, immediately before the first name
marker; other sections are untouched.  Duplicates are not collapsed: an
already-present member name is inserted again (see the counterexample). -/
theorem c2_manifest_merge (pkgChildren : List MetadataElement) (bundles : List String) :
    (∀ i sec, pkgChildren.findIdx? sectionIsStaticResource = some i →
        pkgChildren.getD i default = sec →
        mergeStaticResources pkgChildren bundles =
          pkgChildren.set i (.el sec.tag sec.text
            (sec.children.takeWhile notNameTag ++ bundles.map mkMember ++
              sec.children.dropWhile notNameTag)))
    ∧ (pkgChildren.findIdx? sectionIsStaticResource = none →
        mergeStaticResources pkgChildren bundles =
          pkgChildren ++
            [.el "types" none (bundles.map mkMember ++ [staticResourceNameMarker])]) := by
  constructor
  · intro i sec hfind hsec
    have heq : mergeStaticResources pkgChildren bundles
        = pkgChildren.set i (insertMembers (pkgChildren.getD i default) bundles) := by
      unfold mergeStaticResources
      rw [hfind]
    rw [heq, hsec]
    unfold insertMembers
    rw [foldl_insertBeforeName]
  · intro hfind
    have heq : mergeStaticResources pkgChildren bundles
        = pkgChildren ++ [insertMembers newStaticResourceSection bundles] := by
      unfold mergeStaticResources
      rw [hfind]
    rw [heq]
    unfold insertMembers newStaticResourceSection
    rw [foldl_insertBeforeName]
    rfl

/-- C2 (witness): inserting `["B","A"]` into a section holding only the name
marker yields members `B` then `A` then the marker; merging into a package
with no `StaticResource` section creates that same section at the end. -/
theorem c2_manifest_merge_witness :
    mergeStaticResources [MetadataElement.el "types" none [staticResourceNameMarker]] ["B", "A"]
      = [MetadataElement.el "types" none [mkMember "B", mkMember "A", staticResourceNameMarker]]
    ∧ mergeStaticResources ([] : List MetadataElement) ["B", "A"]
      = [MetadataElement.el "types" none [mkMember "B", mkMember "A", staticResourceNameMarker]] := by
  constructor
  · exact ((c2_manifest_merge
      [MetadataElement.el "types" none [staticResourceNameMarker]] ["B", "A"]).1
        0 (MetadataElement.el "types" none [staticResourceNameMarker]) rfl rfl).trans rfl
  · exact ((c2_manifest_merge ([] : List MetadataElement) ["B", "A"]).2 rfl).trans rfl

/-! ## Side-car cleaning stage -/

/-- Modelled from the spec: `cumulusci.utils.zip_clean_metaxml` is not under
`src/`.  Per section 4.3 it removes the package-version stamp element from
descriptor text; files without that element pass through unchanged.  The
stamp is modelled as the span between the opening and closing
`packageVersions` tags. -/
def cleanDescriptorText (t : String) : String :=
  match t.splitOn "<packageVersions>" with
  | pre :: rest :: _ =>
    (match rest.splitOn "</packageVersions>" with
     | _ :: post :: _ => pre ++ post
     | _ => t)
  | _ => t

/-- Embedding of `MetadataPackageZipBuilder._clean_meta_xml`: a no-op when
the `clean_meta_xml` option is explicitly disabled (the default is
enabled), otherwise every `-meta.xml` file is cleaned of its
package-version stamp. -/
def cleanMetaXml (o : Options) (ar : Archive) : Archive :=
  if !(o.clean_meta_xml.getD true) then ar
  else
    ar.map (fun e =>
      if e.1.endsWith "-meta.xml" then (e.1, cleanDescriptorText e.2) else e)

/-! ## Manifest text codec -/

/-- The text between the first occurrence of `l` and the next occurrence of
`r`, used by the simple manifest reader below. -/
def between (s l r : String) : Option String :=
  match s.splitOn l with
  | _ :: post :: _ => some ((post.splitOn r).headD "")
  | _ => none

/-- Modelled from the spec: `cumulusci.utils.xml.metadata_tree.parse` is not
under `src/`.  Per section 6 a manifest is a fixed-root document of `types`
sections (ordered `members` then one `name`) and a `version` element; this
reader extracts that fixed shape from the manifest text. -/
def parseManifest (s : String) : List MetadataElement :=
  let sections :=
    (s.splitOn "<types>").tail.map (fun chunk =>
      let body := (chunk.splitOn "</types>").headD ""
      let members :=
        (body.splitOn "<members>").tail.map (fun m =>
          mkMember ((m.splitOn "</members>").headD ""))
      let nameText := (between body "<name>" "</name>").getD ""
      MetadataElement.el "types" none (members ++ [.el "name" (some nameText) []]))
  let version := (between s "<version>" "</version>").getD ""
  sections ++ [.el "version" (some version) []]

/-- Serialize one manifest child back to text. -/
def renderManifestChild (c : MetadataElement) : String :=
  match c with
  | .el "types" _ cs =>
    "  <types>\n" ++
      String.join (cs.map (fun m =>
        "    <" ++ m.tag ++ ">" ++ (m.text.getD "") ++ "</" ++ m.tag ++ ">\n")) ++
      "  </types>\n"
  | .el t x _ => "  <" ++ t ++ ">" ++ (x.getD "") ++ "</" ++ t ++ ">\n"

/-- Modelled from the spec: `Package.tostring(xml_declaration=True)` from the
`metadata_tree` module (not under `src/`); per section 6 it emits the fixed
root element with its namespace and the serialized children. -/
def renderManifest (pkgChildren : List MetadataElement) : String :=
  "<?xml version=\"1.0\" encoding=\"UTF-8\"?>\n" ++
    "<Package xmlns=\"http://soap.sforce.com/2006/04/metadata\">\n" ++
    String.join (pkgChildren.map renderManifestChild) ++
    "</Package>\n"

/-! ## Static-resource bundling stage -/

/-- One entry of `os.listdir` on the static-resource directory: its name,
whether it is a sub-directory, the content of the sibling
`<name>.resource-meta.xml` descriptor when that file exists, and the files
found by recursively walking the sub-directory. -/
structure BundleDir where
  name : String
  isDir : Bool
  meta : Option String
  files : List (String × String)

/-- The filesystem state seen by `_bundle_staticresources`: whether the
configured path exists, and the directory listing (in listing order). -/
structure StaticResourceFS where
  pathExists : Bool
  listing : List BundleDir

/-- A reversible packing of a nested archive into a single blob entry,
standing for the bytes of the nested zip written for a resource bundle. -/
def encodeArchive (files : List (String × String)) : String :=
  String.join (files.map (fun f => f.1 ++ "\u0001" ++ f.2 ++ "\u0000"))

/-- The per-bundle step of `_bundle_staticresources`: non-directories are
skipped; a directory without its sibling descriptor file is a fatal error;
otherwise the descriptor copy and the nested bundle blob are appended and
the bundle name is recorded. -/
def bundleStep (acc : List (String × String) × List String) (b : BundleDir) :
    Except String (List (String × String) × List String) :=
  if !b.isDir then .ok acc
  else
    match b.meta with
    | none => .error "FileNotFoundError: resource-meta.xml"
    | some m =>
      .ok (acc.1 ++
            [("staticresources/" ++ b.name ++ ".resource-meta.xml", m),
             ("staticresources/" ++ b.name ++ ".resource", encodeArchive b.files)],
           acc.2 ++ [b.name])

/-- Embedding of `MetadataPackageZipBuilder._bundle_staticresources`: a no-op
when no static-resource path is configured or the path does not exist;
otherwise every entry except `package.xml` is copied, each sub-directory is
packed as a descriptor plus a nested blob, and `package.xml` is re-written
last with the bundle names merged into its `StaticResource` section. -/
def bundleStaticresources (o : Options) (fs : StaticResourceFS) (ar : Archive) :
    Except String Archive :=
  if !(truthy o.static_resource_path) || !fs.pathExists then .ok ar
  else
    let copied : List (String × String) := ar.filter (fun e => !(e.1 == "package.xml"))
    match (ar.find? (fun e => e.1 == "package.xml")) with
    | none => .error "NameError: package_xml"
    | some pkgEntry =>
      match fs.listing.foldl
          (fun (acc : Except String (List (String × String) × List String)) b =>
            match acc with
            | .error e => .error e
            | .ok a => bundleStep a b) (.ok (copied, [])) with
      | .error e => .error e
      | .ok (entries, bundles) =>
        let merged := mergeStaticResources (parseManifest pkgEntry.2) bundles
        .ok (entries ++ [("package.xml", renderManifest merged)])

/-! ## The build pipeline -/

/-- Embedding of `MetadataPackageZipBuilder._process`: namespace transform,
then side-car cleaning, then resource bundling, in that fixed order. -/
def processPipeline (o : Options) (fs : StaticResourceFS) (ar : Archive) :
    Except String Archive :=
  bundleStaticresources o fs (cleanMetaXml o (processNamespaceTokens o ar))

/-! ## Archive finalization state machine -/

/-- The `io.BytesIO` buffer underlying the builder zipfile: its entries and
whether the buffer has been closed. -/
structure ZipBuffer where
  entries : List (String × String)
  closed : Bool
deriving DecidableEq

/-- The state of a `BasePackageZipBuilder`: the buffer, and whether the
zipfile still holds its file pointer (`zf.fp` becomes `None` once the
zipfile is closed). -/
structure BuilderState where
  buffer : ZipBuffer
  zfOpen : Bool
deriving DecidableEq

/-- The state right after `BasePackageZipBuilder._open_zip`. -/
def openZip : BuilderState := ⟨⟨[], false⟩, true⟩

/-- Embedding of `zipfile.writestr` as used by `_write_package_xml` and
`_write_file`: appends an entry while the zipfile is open. -/
def writestr (s : BuilderState) (path content : String) : BuilderState :=
  if s.zfOpen then ⟨⟨s.buffer.entries ++ [(path, content)], s.buffer.closed⟩, s.zfOpen⟩
  else s

/-- Embedding of `BasePackageZipBuilder.as_bytes`: capture `zf.fp`, close the
zipfile (which drops its file pointer), read the buffer value, close the
buffer.  When the zipfile was already closed the captured pointer is `None`
and reading it fails; when the buffer was already closed reading fails. -/
def asBytes (s : BuilderState) : Except String (List (String × String) × BuilderState) :=
  if s.zfOpen then
    if s.buffer.closed then .error "ValueError: operation on closed file"
    else .ok (s.buffer.entries, ⟨⟨s.buffer.entries, true⟩, false⟩)
  else .error "AttributeError: NoneType has no attribute getvalue"

/-! ## C3 theorems -/

/-- C3 (counterexample): calling `as_bytes` a second time does not return the
same bytes again; the first call drops the zipfile's file pointer and closes
the buffer, so the second call fails. -/
theorem c3_second_call_counterexample :
    asBytes (writestr openZip "package.xml" "<Package/>")
      = .ok ([("package.xml", "<Package/>")],
             (⟨⟨[("package.xml", "<Package/>")], true⟩, false⟩ : BuilderState))
    ∧ asBytes (⟨⟨[("package.xml", "<Package/>")], true⟩, false⟩ : BuilderState)
      = .error "AttributeError: NoneType has no attribute getvalue" :=
  ⟨rfl, rfl⟩

/-- C3 (amended): finalization happens exactly once per archive instance.
Whenever a call to `as_bytes` succeeds, a second call on the resulting state
fails (the zipfile no longer holds its file pointer), so `as_bytes` is not
idempotent. -/
theorem c3_finalize_once (s : BuilderState) (b : List (String × String))
    (s2 : BuilderState) (h : asBytes s = .ok (b, s2)) :
    asBytes s2 = .error "AttributeError: NoneType has no attribute getvalue" := by
  unfold asBytes at h ⊢
  cases h1 : s.zfOpen with
  | false => simp [h1] at h
  | true =>
    simp [h1] at h
    cases h2 : s.buffer.closed with
    | true => simp [h2] at h
    | false =>
      simp [h2] at h
      rw [← h.2]
      rfl

/-- C3 (witness): a concrete builder state whose first `as_bytes` call
succeeds and whose second call fails. -/
theorem c3_finalize_once_witness :
    asBytes (⟨⟨[("package.xml", "x")], false⟩, true⟩ : BuilderState)
      = .ok ([("package.xml", "x")], (⟨⟨[("package.xml", "x")], true⟩, false⟩ : BuilderState))
    ∧ asBytes (⟨⟨[("package.xml", "x")], true⟩, false⟩ : BuilderState)
      = .error "AttributeError: NoneType has no attribute getvalue" :=
  ⟨rfl, c3_finalize_once ⟨⟨[("package.xml", "x")], false⟩, true⟩ [("package.xml", "x")]
    ⟨⟨[("package.xml", "x")], true⟩, false⟩ rfl⟩

/-! ## C4 theorems -/

/-- C4: the pipeline runs its stages in the fixed order namespace transform,
then side-car cleaning, then resource bundling; and each stage is a no-op
when its trigger is absent (no namespace option truthy; clean flag disabled;
no static-resource path configured or path missing). -/
theorem c4_stage_order_and_noops (o : Options) (fs : StaticResourceFS) (ar : Archive) :
    processPipeline o fs ar
      = bundleStaticresources o fs (cleanMetaXml o (processNamespaceTokens o ar))
    ∧ (truthy o.namespace_tokenize = false → truthy o.namespace_inject = false →
        truthy o.namespace_strip = false → processNamespaceTokens o ar = ar)
    ∧ (o.clean_meta_xml = some false → cleanMetaXml o ar = ar)
    ∧ (truthy o.static_resource_path = false ∨ fs.pathExists = false →
        bundleStaticresources o fs ar = .ok ar) := by
  refine ⟨rfl, ?_, ?_, ?_⟩
  · intro h1 h2 h3
    simp [processNamespaceTokens, h1, h2, h3]
  · intro h
    simp [cleanMetaXml, h]
  · intro h
    rcases h with h | h <;> simp [bundleStaticresources, h]

/-- C4 (witness): with no namespace option, the clean flag disabled and no
existing static-resource directory, each stage leaves a concrete archive
unchanged. -/
theorem c4_stage_order_and_noops_witness :
    processNamespaceTokens { clean_meta_xml := some false } [("package.xml", "p")]
      = [("package.xml", "p")]
    ∧ cleanMetaXml { clean_meta_xml := some false } [("package.xml", "p")]
      = [("package.xml", "p")]
    ∧ bundleStaticresources { clean_meta_xml := some false } ⟨false, []⟩
        [("package.xml", "p")]
      = .ok [("package.xml", "p")] :=
  ⟨(c4_stage_order_and_noops { clean_meta_xml := some false } ⟨false, []⟩
      [("package.xml", "p")]).2.1 rfl rfl rfl,
   (c4_stage_order_and_noops { clean_meta_xml := some false } ⟨false, []⟩
      [("package.xml", "p")]).2.2.1 rfl,
   (c4_stage_order_and_noops { clean_meta_xml := some false } ⟨false, []⟩
      [("package.xml", "p")]).2.2.2 (Or.inl rfl)⟩

/-! ## Directory discovery policy (lwc special case) -/

/-- Embedding of the extension allow-list test in
`MetadataPackageZipBuilder._include_file`: the lowered file name must end
with one of the allow-listed extensions. -/
def allowedLwcExt (f : String) : Bool :=
  let lf := f.toLower
  lf.endsWith ".js" || lf.endsWith ".js-meta.xml" || lf.endsWith ".html" ||
    lf.endsWith ".css" || lf.endsWith ".svg"

/-- Embedding of `MetadataPackageZipBuilder._include_directory`: the root,
every directory whose first component is not `lwc`, and `lwc` component
directories (depth exactly two) are included. -/
def includeDirectory (root_parts : List String) : Bool :=
  root_parts.length == 0 || !(root_parts.headD "" == "lwc") || root_parts.length == 2

/-- Embedding of `MetadataPackageZipBuilder._include_file`: inside an `lwc`
component directory only allow-listed extensions pass; everywhere else every
file passes. -/
def includeFile (root_parts : List String) (f : String) : Bool :=
  if root_parts.length == 2 && root_parts.headD "" == "lwc" then allowedLwcExt f
  else true

/-- A file is packaged exactly when its directory is included and the file
passes the per-file filter, as in `_find_files_to_package`. -/
def includedInPackage (root_parts : List String) (f : String) : Bool :=
  includeDirectory root_parts && includeFile root_parts f

/-- The allow-list as the claim words it: the name ends, case-insensitively,
with one of the five listed extensions. -/
def allowedLwcExtSpec (f : String) : Bool :=
  [".js", ".js-meta.xml", ".html", ".css", ".svg"].any
    (fun e => f.toLower.endsWith e)

/-- The discovery policy as the claim words it: outside the `lwc` tree every
file is included unconditionally; under `lwc` a file is included only when it
lies in an immediate sub-directory and has an allow-listed extension. -/
def includedSpec (root_parts : List String) (f : String) : Bool :=
  match root_parts with
  | [] => true
  | p :: rest =>
    if p == "lwc" then rest.length == 1 && allowedLwcExtSpec f
    else true

/-! ## C8 theorem -/

/-- C8: the walk's per-file decision coincides with the claimed policy: the
special-cased `lwc` directory is descended exactly one extra level (files
directly in `lwc`, or deeper than its immediate sub-directories, are
excluded; immediate sub-directory files need an allow-listed extension,
matched case-insensitively), while every file outside `lwc` is included
unconditionally. -/
theorem c8_discovery_policy (root_parts : List String) (f : String) :
    includedInPackage root_parts f = includedSpec root_parts f := by
  cases root_parts with
  | nil => rfl
  | cons p rest =>
    by_cases hp : p == "lwc"
    · have hp2 : p = "lwc" := by simpa using hp
      subst hp2
      cases rest with
      | nil => rfl
      | cons q qs =>
        cases qs with
        | nil =>
          simp [includedInPackage, includedSpec, includeDirectory, includeFile,
            allowedLwcExt, allowedLwcExtSpec, Bool.or_assoc]
        | cons r rs =>
          simp [includedInPackage, includedSpec, includeDirectory, includeFile]
    · simp [includedInPackage, includedSpec, includeDirectory, includeFile, hp]

/-! ## Entity-transform engine (spec-modelled) -/

/-- The numeric value of a hexadecimal digit character. -/
def hexVal (c : Char) : Option Nat :=
  if '0' ≤ c ∧ c ≤ '9' then some (c.toNat - 48)
  else if 'a' ≤ c ∧ c ≤ 'f' then some (c.toNat - 87)
  else if 'A' ≤ c ∧ c ≤ 'F' then some (c.toNat - 55)
  else none

/-- Percent-decoding of a character list (the reversal of path-escaping:
`%28` becomes `(` and so on); malformed escapes pass through unchanged. -/
def unquoteChars : List Char → List Char
  | [] => []
  | '%' :: a :: b :: rest =>
    (match hexVal a, hexVal b with
     | some x, some y => Char.ofNat (16 * x + y) :: unquoteChars rest
     | _, _ => '%' :: unquoteChars (a :: b :: rest))
  | c :: rest => c :: unquoteChars rest

/-- Modelled from the spec: the path-unescaping used to derive a record's
API name (`urllib.parse.unquote` as used by the engine in
`metadata_etl/base.py`, which is not under `src/`; section 4.6: reversing
any path-escaping of characters not safe in file names). -/
def unquote (s : String) : String := String.mk (unquoteChars s.data)

/-- Where one entity type lives on disk and whether it is an XML type. -/
structure EntityConfig where
  directory : String
  extension : String
  supportsXml : Bool
deriving DecidableEq

/-- Modelled from the spec: the entity-type registry of the entity-transform
engine (`metadata_etl/base.py` is not under `src/`).  Section 3: a record is
a primary XML document at a type-specific sub-path; some types are declared
non-XML and cannot be entity-transformed.  Directories and extensions for
the types exercised by the tests; `LightningComponentBundle` is the declared
non-XML type; unknown types are absent. -/
def entityRegistry : String → Option EntityConfig
  | "CustomApplication" => some ⟨"applications", ".app", true⟩
  | "Layout" => some ⟨"layouts", ".layout", true⟩
  | "CustomObject" => some ⟨"objects", ".object", true⟩
  | "LightningComponentBundle" => some ⟨"lwc", "", false⟩
  | _ => none

/-- Boolean test that a string ends with the given suffix, computed on the
character lists. -/
def strEndsWith (s suf : String) : Bool :=
  startsWithChars suf.data.reverse s.data.reverse

/-- Drop the last `n` characters of a string, computed on the character
list. -/
def strDropRight (s : String) (n : Nat) : String :=
  String.mk (s.data.take (s.data.length - n))

/-- The escaped file base name of a discovered record (file name minus the
type's extension). -/
def selBase (cfg : EntityConfig) (f : String × MetadataElement) : String :=
  strDropRight f.1 cfg.extension.data.length

/-- The primary record files of the type: the retrieved files carrying the
type's extension, in directory order. -/
def recordFiles (cfg : EntityConfig) (files : List (String × MetadataElement)) :
    List (String × MetadataElement) :=
  files.filter (fun f => strEndsWith f.1 cfg.extension)

/-- The set of discovered record names (escaped file base names). -/
def discoveredNames (cfg : EntityConfig) (files : List (String × MetadataElement)) :
    Finset String :=
  ((recordFiles cfg files).map (selBase cfg)).toFinset

/-- The output entry emitted for one surviving record: same relative layout,
and the tree the transform returned (total form via `getD`; on the success
path the transform returned `some`). -/
def emitD (cfg : EntityConfig) (fn : MetadataElement → String → Option MetadataElement)
    (f : String × MetadataElement) : String × MetadataElement :=
  (cfg.directory ++ "/" ++ f.1, (fn f.2 (unquote (selBase cfg f))).getD f.2)

/-- Modelled from the spec: the per-record step of the transform loop
(section 4.6).  A record whose name is still selected is parsed and handed
to the transform function with its unescaped API name; a returned tree is
emitted under the same relative layout, while a "no value" result deletes
the record: nothing is emitted and its name is removed from the selection
set.  Unselected records are skipped. -/
def transformStep (cfg : EntityConfig)
    (fn : MetadataElement → String → Option MetadataElement)
    (acc : Finset String × List (String × MetadataElement))
    (f : String × MetadataElement) : Finset String × List (String × MetadataElement) :=
  if selBase cfg f ∈ acc.1 then
    (match fn f.2 (unquote (selBase cfg f)) with
     | some t => (acc.1, acc.2 ++ [(cfg.directory ++ "/" ++ f.1, t)])
     | none => (acc.1.erase (selBase cfg f), acc.2))
  else acc

/-- Fold the per-record step over the discovered records, starting from the
resolved selection set and an empty output archive. -/
def processRecs (cfg : EntityConfig)
    (fn : MetadataElement → String → Option MetadataElement)
    (sel : Finset String) (recs : List (String × MetadataElement)) :
    Finset String × List (String × MetadataElement) :=
  recs.foldl (transformStep cfg fn) (sel, [])

/-- Modelled from the spec: the per-type body of the transform run
(section 4.6), once the entity type resolved to a configuration: a non-XML
type fails before discovery; a wildcard selection includes every discovered
record and resolves to the discovered-name set; an explicit selection must
be a subset of the discovered names, else the run fails. -/
def runTransformWith (cfg : EntityConfig) (apiNames : Finset String)
    (files : List (String × MetadataElement))
    (fn : MetadataElement → String → Option MetadataElement) :
    Except String (Finset String × List (String × MetadataElement)) :=
  if cfg.supportsXml = false then
    .error "CumulusCIException: entity cannot be transformed"
  else if "*" ∈ apiNames then
    .ok (processRecs cfg fn (discoveredNames cfg files) (recordFiles cfg files))
  else if apiNames ⊆ discoveredNames cfg files then
    .ok (processRecs cfg fn apiNames (recordFiles cfg files))
  else
    .error "CumulusCIException: records not found"

/-- Modelled from the spec: `MetadataSingleEntityTransformTask._transform`
(`metadata_etl/base.py`, not under `src/`): resolve the entity type (an
unknown type is an error), then run the per-type body. -/
def runTransform (entity : String) (apiNames : Finset String)
    (files : List (String × MetadataElement))
    (fn : MetadataElement → String → Option MetadataElement) :
    Except String (Finset String × List (String × MetadataElement)) :=
  match entityRegistry entity with
  | none => .error "CumulusCIException: unrecognized entity"
  | some cfg => runTransformWith cfg apiNames files fn

/-! ## Fold lemmas for the transform loop -/

/-- When every record is selected and the transform never deletes, the loop
leaves the selection set unchanged and emits one output per record, in
discovery order. -/
theorem processRecs_total (cfg : EntityConfig)
    (fn : MetadataElement → String → Option MetadataElement) :
    ∀ (recs : List (String × MetadataElement)) (sel : Finset String)
      (outs : List (String × MetadataElement)),
      (∀ f ∈ recs, selBase cfg f ∈ sel) →
      (∀ f ∈ recs, (fn f.2 (unquote (selBase cfg f))).isSome = true) →
      recs.foldl (transformStep cfg fn) (sel, outs) =
        (sel, outs ++ recs.map (emitD cfg fn)) := by
  intro recs
  induction recs with
  | nil => intro sel outs _ _; simp
  | cons f fs ih =>
    intro sel outs hmem hsome
    rw [List.foldl_cons]
    have hm : selBase cfg f ∈ sel := hmem f (by simp)
    obtain ⟨t, ht⟩ := Option.isSome_iff_exists.mp (hsome f (by simp))
    have hstep : transformStep cfg fn (sel, outs) f =
        (sel, outs ++ [(cfg.directory ++ "/" ++ f.1, t)]) := by
      unfold transformStep
      rw [if_pos hm, ht]
    rw [hstep,
      ih _ _ (fun g hg => hmem g (by simp [hg])) (fun g hg => hsome g (by simp [hg]))]
    simp [emitD, ht]

/-! ## C5 theorem -/

/-- C5: a run whose selection set holds the wildcard marker includes every
discovered record (one output per record, in discovery order) and, when the
transform deletes nothing, ends with the selection set equal to exactly the
set of discovered record names. -/
theorem c5_wildcard_resolution (entity : String) (cfg : EntityConfig)
    (apiNames : Finset String) (files : List (String × MetadataElement))
    (fn : MetadataElement → String → Option MetadataElement)
    (hreg : entityRegistry entity = some cfg) (hxml : cfg.supportsXml = true)
    (hw : "*" ∈ apiNames)
    (hfn : ∀ f ∈ recordFiles cfg files, (fn f.2 (unquote (selBase cfg f))).isSome = true) :
    runTransform entity apiNames files fn =
      .ok (discoveredNames cfg files, (recordFiles cfg files).map (emitD cfg fn)) := by
  unfold runTransform
  rw [hreg]
  show runTransformWith cfg apiNames files fn = _
  unfold runTransformWith
  rw [if_neg (by simp [hxml]), if_pos hw]
  unfold processRecs
  rw [processRecs_total cfg fn (recordFiles cfg files) (discoveredNames cfg files) []
    (fun g hg => by
      unfold discoveredNames
      exact List.mem_toFinset.mpr (List.mem_map_of_mem (selBase cfg) hg))
    hfn]
  simp

/-- C5 (witness): the wildcard run of the tests: two discovered
applications, an identity transform; afterwards the selection set is exactly
the two discovered names and both records are emitted. -/
theorem c5_wildcard_resolution_witness :
    runTransform "CustomApplication" {"*"}
        [("Test.app", MetadataElement.el "CustomApplication" none []),
         ("Test_2.app", MetadataElement.el "CustomApplication" none [])]
        (fun t _ => some t) =
      .ok ({"Test", "Test_2"},
           [("applications/Test.app", MetadataElement.el "CustomApplication" none []),
            ("applications/Test_2.app", MetadataElement.el "CustomApplication" none [])]) :=
  (c5_wildcard_resolution "CustomApplication" ⟨"applications", ".app", true⟩ {"*"}
    [("Test.app", MetadataElement.el "CustomApplication" none []),
     ("Test_2.app", MetadataElement.el "CustomApplication" none [])]
    (fun t _ => some t) rfl rfl (by simp) (fun f _ => rfl)).trans (by rfl)

/-! ## C7 theorem -/

/-- C7: an explicit (non-wildcard) selection set that names a record never
discovered under the entity type's sub-path fails with a selection error:
the selection set must be a subset of the discovered records. -/
theorem c7_missing_record (entity : String) (cfg : EntityConfig)
    (apiNames : Finset String) (files : List (String × MetadataElement))
    (fn : MetadataElement → String → Option MetadataElement)
    (hreg : entityRegistry entity = some cfg) (hxml : cfg.supportsXml = true)
    (hnw : "*" ∉ apiNames) (hmiss : ¬ apiNames ⊆ discoveredNames cfg files) :
    runTransform entity apiNames files fn =
      .error "CumulusCIException: records not found" := by
  unfold runTransform
  rw [hreg]
  show runTransformWith cfg apiNames files fn = _
  unfold runTransformWith
  rw [if_neg (by simp [hxml]), if_neg hnw, if_neg hmiss]

/-- C7 (witness): selection set containing only `Test` against an empty
discovery fails. -/
theorem c7_missing_record_witness :
    runTransform "CustomApplication" {"Test"} [] (fun t _ => some t) =
      .error "CumulusCIException: records not found" :=
  c7_missing_record "CustomApplication" ⟨"applications", ".app", true⟩ {"Test"} []
    (fun t _ => some t) rfl rfl (by decide) (by decide)

/-- Every discovered record's base name is in the discovered-name set. -/
theorem selBase_mem_discoveredNames (cfg : EntityConfig)
    (files : List (String × MetadataElement)) :
    ∀ g ∈ recordFiles cfg files, selBase cfg g ∈ discoveredNames cfg files := by
  intro g hg
  unfold discoveredNames
  exact List.mem_toFinset.mpr (List.mem_map_of_mem (selBase cfg) hg)

/-! ## C10 theorem -/

/-- C10: for a record whose file name carries path-escaped characters, the
transform function is invoked with the unescaped API name (the run's outcome
is driven by the function's value at `Contact (Marketing) Layout`), while
the post-transform selection set and the emitted output path keep the
escaped file base name `Contact %28Marketing%29 Layout`. -/
theorem c10_escaped_names (fn : MetadataElement → String → Option MetadataElement)
    (t t2 : MetadataElement) (h : fn t "Contact (Marketing) Layout" = some t2) :
    runTransform "Layout" {"*"} [("Contact %28Marketing%29 Layout.layout", t)] fn =
      .ok ({"Contact %28Marketing%29 Layout"},
           [("layouts/Contact %28Marketing%29 Layout.layout", t2)]) := by
  have hreg : entityRegistry "Layout" = some ⟨"layouts", ".layout", true⟩ := rfl
  have hb : selBase ⟨"layouts", ".layout", true⟩ ("Contact %28Marketing%29 Layout.layout", t)
      = "Contact %28Marketing%29 Layout" := rfl
  have hu : unquote "Contact %28Marketing%29 Layout" = "Contact (Marketing) Layout" := rfl
  have hfn : ∀ f ∈ recordFiles (⟨"layouts", ".layout", true⟩ : EntityConfig)
      [("Contact %28Marketing%29 Layout.layout", t)],
      (fn f.2 (unquote (selBase (⟨"layouts", ".layout", true⟩ : EntityConfig) f))).isSome
        = true := by
    intro f hf
    have hf2 : f ∈ [("Contact %28Marketing%29 Layout.layout", t)] := hf
    have hfe : f = ("Contact %28Marketing%29 Layout.layout", t) := by simpa using hf2
    subst hfe
    rw [hb, hu, h]
    rfl
  unfold runTransform
  rw [hreg]
  show runTransformWith _ _ _ _ = _
  unfold runTransformWith
  rw [if_neg (by simp), if_pos (by simp)]
  unfold processRecs
  rw [processRecs_total _ fn _ _ []
    (selBase_mem_discoveredNames ⟨"layouts", ".layout", true⟩
      [("Contact %28Marketing%29 Layout.layout", t)]) hfn]
  rw [show (recordFiles (⟨"layouts", ".layout", true⟩ : EntityConfig)
        [("Contact %28Marketing%29 Layout.layout", t)]).map
          (emitD (⟨"layouts", ".layout", true⟩ : EntityConfig) fn)
      = [("layouts/Contact %28Marketing%29 Layout.layout", t2)] from by
    show [emitD (⟨"layouts", ".layout", true⟩ : EntityConfig) fn
      ("Contact %28Marketing%29 Layout.layout", t)] = _
    unfold emitD
    rw [hb, hu, h]
    rfl]
  rfl

/-- C10 (witness): a concrete transform keyed on the unescaped API name; the
run succeeds, keeping the escaped name in the selection set and path. -/
theorem c10_escaped_names_witness :
    runTransform "Layout" {"*"}
        [("Contact %28Marketing%29 Layout.layout", MetadataElement.el "PageLayout" none [])]
        (fun tr n => if n == "Contact (Marketing) Layout" then some tr else none) =
      .ok ({"Contact %28Marketing%29 Layout"},
           [("layouts/Contact %28Marketing%29 Layout.layout",
             MetadataElement.el "PageLayout" none [])]) :=
  c10_escaped_names
    (fun tr n => if n == "Contact (Marketing) Layout" then some tr else none)
    (MetadataElement.el "PageLayout" none []) (MetadataElement.el "PageLayout" none []) rfl

/-! ## C6: selective deletion -/

/-- The records of the list that are selected and survive the transform
(the function returns a tree). -/
def keptIn (cfg : EntityConfig) (fn : MetadataElement → String → Option MetadataElement)
    (recs : List (String × MetadataElement)) (sel : Finset String) :
    List (String × MetadataElement) :=
  recs.filter (fun g => decide (selBase cfg g ∈ sel)
    && (fn g.2 (unquote (selBase cfg g))).isSome)

/-- The records of the list that are selected but deleted by the transform
(the function returns no value). -/
def removedIn (cfg : EntityConfig) (fn : MetadataElement → String → Option MetadataElement)
    (recs : List (String × MetadataElement)) (sel : Finset String) :
    List (String × MetadataElement) :=
  recs.filter (fun g => decide (selBase cfg g ∈ sel)
    && (fn g.2 (unquote (selBase cfg g))).isNone)

/-- The escaped names of the deleted records. -/
def removedNamesIn (cfg : EntityConfig)
    (fn : MetadataElement → String → Option MetadataElement)
    (recs : List (String × MetadataElement)) (sel : Finset String) : Finset String :=
  ((removedIn cfg fn recs sel).map (selBase cfg)).toFinset

/-- The effective selection set after wildcard resolution. -/
def resolvedSelection (cfg : EntityConfig) (apiNames : Finset String)
    (files : List (String × MetadataElement)) : Finset String :=
  if "*" ∈ apiNames then discoveredNames cfg files else apiNames

/-- Erasing a name that appears under no record of the list does not change
which records count as kept or removed. -/
theorem keptIn_removedIn_erase (cfg : EntityConfig)
    (fn : MetadataElement → String → Option MetadataElement)
    (fs : List (String × MetadataElement)) (sel : Finset String) (b : String)
    (hb : b ∉ fs.map (selBase cfg)) :
    keptIn cfg fn fs (sel.erase b) = keptIn cfg fn fs sel
    ∧ removedIn cfg fn fs (sel.erase b) = removedIn cfg fn fs sel := by
  constructor <;>
  · first
    | unfold keptIn
    | unfold removedIn
    apply List.filter_congr
    intro g hg
    have hne : selBase cfg g ≠ b := fun he => hb (he ▸ List.mem_map_of_mem (selBase cfg) hg)
    simp [Finset.mem_erase, hne]

/-- Full characterization of the transform loop when the record base names
are distinct: the final selection set is the initial one minus the names of
the deleted records, and the outputs are exactly the surviving records, in
discovery order. -/
theorem processRecs_characterization (cfg : EntityConfig)
    (fn : MetadataElement → String → Option MetadataElement) :
    ∀ (recs : List (String × MetadataElement)) (sel : Finset String)
      (outs : List (String × MetadataElement)),
      (recs.map (selBase cfg)).Nodup →
      recs.foldl (transformStep cfg fn) (sel, outs) =
        (sel \ removedNamesIn cfg fn recs sel,
         outs ++ (keptIn cfg fn recs sel).map (emitD cfg fn)) := by
  intro recs
  induction recs with
  | nil => intro sel outs _; simp [removedNamesIn, removedIn, keptIn]
  | cons f fs ih =>
    intro sel outs hnd
    rw [List.map_cons, List.nodup_cons] at hnd
    obtain ⟨hnotin, hndtail⟩ := hnd
    rw [List.foldl_cons]
    by_cases hmem : selBase cfg f ∈ sel
    · cases hfn : fn f.2 (unquote (selBase cfg f)) with
      | some t =>
        have hstep : transformStep cfg fn (sel, outs) f =
            (sel, outs ++ [(cfg.directory ++ "/" ++ f.1, t)]) := by
          unfold transformStep
          rw [if_pos hmem, hfn]
        rw [hstep, ih _ _ hndtail]
        simp [keptIn, removedIn, removedNamesIn, List.filter_cons, hmem, hfn, emitD]
      | none =>
        have hstep : transformStep cfg fn (sel, outs) f =
            (sel.erase (selBase cfg f), outs) := by
          unfold transformStep
          rw [if_pos hmem, hfn]
        rw [hstep, ih _ _ hndtail]
        obtain ⟨hk, hr⟩ := keptIn_removedIn_erase cfg fn fs sel (selBase cfg f) hnotin
        rw [hk]
        unfold removedNamesIn
        rw [hr]
        have hrem : removedIn cfg fn (f :: fs) sel = f :: removedIn cfg fn fs sel := by
          unfold removedIn
          rw [List.filter_cons]
          simp [hmem, hfn]
        have hkept : keptIn cfg fn (f :: fs) sel = keptIn cfg fn fs sel := by
          unfold keptIn
          rw [List.filter_cons]
          simp [hfn]
        rw [hrem, hkept, List.map_cons, List.toFinset_cons, Finset.erase_eq,
          sdiff_sdiff_left, Finset.insert_eq]
        simp [Finset.sup_eq_union]
    · have hstep : transformStep cfg fn (sel, outs) f = (sel, outs) := by
        unfold transformStep
        rw [if_neg hmem]
      rw [hstep, ih _ _ hndtail]
      simp [keptIn, removedIn, removedNamesIn, List.filter_cons, hmem]

/-- C6: in a run with distinct record base names and an admissible selection
set, a record for which the transform returns "no value" is omitted from the
output archive and its escaped name is removed from the post-transform
selection set, while records for which the function returns a tree are
emitted; the run succeeds (deletion is not an error). -/
theorem c6_selective_deletion (entity : String) (cfg : EntityConfig)
    (apiNames : Finset String) (files : List (String × MetadataElement))
    (fn : MetadataElement → String → Option MetadataElement)
    (hreg : entityRegistry entity = some cfg) (hxml : cfg.supportsXml = true)
    (hnd : ((recordFiles cfg files).map (selBase cfg)).Nodup)
    (hsel : "*" ∈ apiNames ∨ apiNames ⊆ discoveredNames cfg files) :
    runTransform entity apiNames files fn =
      .ok (resolvedSelection cfg apiNames files
            \ removedNamesIn cfg fn (recordFiles cfg files)
                (resolvedSelection cfg apiNames files),
           (keptIn cfg fn (recordFiles cfg files)
                (resolvedSelection cfg apiNames files)).map (emitD cfg fn)) := by
  unfold runTransform
  rw [hreg]
  show runTransformWith cfg apiNames files fn = _
  unfold runTransformWith
  rw [if_neg (by simp [hxml])]
  by_cases hw : "*" ∈ apiNames
  · rw [if_pos hw]
    unfold processRecs
    rw [processRecs_characterization cfg fn _ _ [] hnd]
    unfold resolvedSelection
    rw [if_pos hw]
    simp
  · rw [if_neg hw, if_pos (hsel.resolve_left hw)]
    unfold processRecs
    rw [processRecs_characterization cfg fn _ _ [] hnd]
    unfold resolvedSelection
    rw [if_neg hw]
    simp

/-- C6 (witness): the deletion run of the tests: a transform deleting only
`Test_2` leaves the output archive and selection set with `Test` alone. -/
theorem c6_selective_deletion_witness :
    runTransform "CustomApplication" {"*"}
        [("Test.app", MetadataElement.el "CustomApplication" none []),
         ("Test_2.app", MetadataElement.el "CustomApplication" none [])]
        (fun tr n => if n == "Test_2" then none else some tr) =
      .ok ({"Test"},
           [("applications/Test.app", MetadataElement.el "CustomApplication" none [])]) :=
  (c6_selective_deletion "CustomApplication" ⟨"applications", ".app", true⟩ {"*"}
    [("Test.app", MetadataElement.el "CustomApplication" none []),
     ("Test_2.app", MetadataElement.el "CustomApplication" none [])]
    (fun tr n => if n == "Test_2" then none else some tr)
    rfl rfl (by decide) (Or.inl (by simp))).trans (by rfl)

/-! ## C9: first-child-text transform -/

/-- Overwrite the text of the first child carrying the target tag, leaving
every other child untouched. -/
def setFirstText (tag value : String) : List MetadataElement → List MetadataElement
  | [] => []
  | c :: cs =>
    if c.tag == tag then MetadataElement.el c.tag (some value) c.children :: cs
    else c :: setFirstText tag value cs

/-- Modelled from the spec:
`UpdateMetadataFirstChildTextTask._transform_entity` (`metadata_etl/base.py`
is not under `src/`).  Section 4.6: given a target child-element tag and a
value, if a first-level child with that tag exists, overwrite its text;
otherwise append a new child with that tag and the value as its text; the
tree itself is returned (never a deletion). -/
def updateFirstChildText (tag value : String) : MetadataElement → Option MetadataElement
  | .el t x cs =>
    match cs.find? (fun c => c.tag == tag) with
    | some _ => some (.el t x (setFirstText tag value cs))
    | none => some (.el t x (cs ++ [.el tag (some value) []]))

/-- The first child with the target tag is the head of the suffix that
starts at the first such child. -/
theorem find_eq_head_dropWhile (tag : String) (cs : List MetadataElement) :
    cs.find? (fun c => c.tag == tag) =
      (cs.dropWhile (fun c => !(c.tag == tag))).head? := by
  induction cs with
  | nil => rfl
  | cons c cs ih =>
    cases hq : (c.tag == tag)
    · simp [List.find?_cons, hq, List.dropWhile_cons, ih]
    · simp [List.find?_cons, hq, List.dropWhile_cons]

/-- Overwriting the first matching child's text splits the children at the
first matching child and changes only its text field. -/
theorem setFirstText_split (tag value : String) :
    ∀ cs : List MetadataElement,
      setFirstText tag value cs =
        cs.takeWhile (fun c => !(c.tag == tag)) ++
          (match cs.dropWhile (fun c => !(c.tag == tag)) with
           | [] => []
           | d :: ds => MetadataElement.el d.tag (some value) d.children :: ds) := by
  intro cs
  induction cs with
  | nil => rfl
  | cons c cs ih =>
    cases hq : (c.tag == tag)
    · simp [setFirstText, hq, List.takeWhile_cons, List.dropWhile_cons, ih]
    · simp [setFirstText, hq, List.takeWhile_cons, List.dropWhile_cons]

/-- C9: when a first-level child with the target tag exists, the transform
overwrites that child's text in place (same position, same sub-children, no
element added); when none exists it appends exactly one new child with the
tag and the value as its text; in both cases it returns the tree (a `some`
result, never a deletion). -/
theorem c9_first_child_text (tag value t : String) (x : Option String)
    (cs : List MetadataElement) :
    (∀ d ds, cs.dropWhile (fun c => !(c.tag == tag)) = d :: ds →
        updateFirstChildText tag value (.el t x cs) =
          some (.el t x (cs.takeWhile (fun c => !(c.tag == tag)) ++
            MetadataElement.el d.tag (some value) d.children :: ds)))
    ∧ (cs.dropWhile (fun c => !(c.tag == tag)) = [] →
        updateFirstChildText tag value (.el t x cs) =
          some (.el t x (cs ++ [MetadataElement.el tag (some value) []]))) := by
  constructor
  · intro d ds hsplit
    simp only [updateFirstChildText]
    rw [find_eq_head_dropWhile, hsplit]
    show some (MetadataElement.el t x (setFirstText tag value cs)) = _
    rw [setFirstText_split, hsplit]
  · intro hsplit
    simp only [updateFirstChildText]
    rw [find_eq_head_dropWhile, hsplit]
    rfl

/-- C9 (witness): overwriting an existing `customObjectAttribute` child
changes only its text; on a record without that child exactly one new child
is appended. -/
theorem c9_first_child_text_witness :
    updateFirstChildText "customObjectAttribute" "newAttributeValue"
        (MetadataElement.el "CustomObject" none
          [MetadataElement.el "customObjectAttribute" (some "old") []])
      = some (MetadataElement.el "CustomObject" none
          [MetadataElement.el "customObjectAttribute" (some "newAttributeValue") []])
    ∧ updateFirstChildText "customObjectAttribute" "newAttributeValue"
        (MetadataElement.el "CustomObject" none [])
      = some (MetadataElement.el "CustomObject" none
          [MetadataElement.el "customObjectAttribute" (some "newAttributeValue") []]) :=
  ⟨((c9_first_child_text "customObjectAttribute" "newAttributeValue" "CustomObject" none
      [MetadataElement.el "customObjectAttribute" (some "old") []]).1
      (MetadataElement.el "customObjectAttribute" (some "old") []) [] rfl).trans (by rfl),
   ((c9_first_child_text "customObjectAttribute" "newAttributeValue" "CustomObject" none
      []).2 rfl).trans (by rfl)⟩
